import Mathlib

/-!
Verification of the pick-resolution core of the SOTU prediction-market
leaderboard (source: `db.py`, `kalshi.py`).  Python functions are embedded
shallowly: dictionaries become association lists, SQLite tables become
lists of rows, `REAL` prices become rationals, and the SQL queries of
`calculate_scores` / `get_pick_details` are translated join-for-join.
-/

/-! ### Character classes used by the `_POINTS_SUFFIX` regex and `str.strip` -/

/-- ASCII whitespace recognised by the regex class `\s` and `str.strip`. -/
def isWs (c : Char) : Bool :=
  c = ' ' || c = '\t' || c = '\n' || c = '\r' || c = '\x0b' || c = '\x0c'

/-- The dash-like characters of the regex class `[—–-]` in `_POINTS_SUFFIX`. -/
def isDash (c : Char) : Bool :=
  c = '—' || c = '–' || c = '-'

/-- Drop a leading (possibly empty) run of whitespace: the regex `\s*`. -/
def skipWs : List Char → List Char
  | [] => []
  | c :: r => if isWs c then skipWs r else c :: r

/-- Consume a leading digit run (`\d*`), returning its length and the rest. -/
def takeDigits : List Char → Nat × List Char
  | [] => (0, [])
  | c :: r =>
      if c.isDigit then
        let p := takeDigits r
        (p.1 + 1, p.2)
      else (0, c :: r)

/-- Consume one optional `'s'`: the regex `s?` at the end of `[Pp]oints?`. -/
def consumeOptS : List Char → List Char
  | 's' :: r => r
  | r => r

/-- `true` iff the list is entirely whitespace (the trailing `\s*$`). -/
def allWsB (l : List Char) : Bool := l.all isWs

/-- Match `[Pp]oint`, then `s?`, then `\s*$`, against the whole list. -/
def matchWordTail : List Char → Bool
  | c :: 'o' :: 'i' :: 'n' :: 't' :: r =>
      (c = 'p' || c = 'P') && allWsB (consumeOptS r)
  | _ => false

/-- Does `_POINTS_SUFFIX = \s*[—–-]\s*\d+\s*[Pp]oints?\s*$` match the whole
list?  Each character class here is disjoint from its successor, so the
regex backtracks nowhere and a single greedy pass is its exact semantics. -/
def pointsSuffixMatch (l : List Char) : Bool :=
  match skipWs l with
  | [] => false
  | c :: r =>
      isDash c &&
        (let r2 := skipWs r
         let p := takeDigits r2
         decide (0 < p.1) && matchWordTail (skipWs p.2))

/-- `re.sub(pattern, "", raw)` for an end-anchored pattern: delete from the
leftmost position where the pattern matches through to the end (a match
cannot begin with the non-whitespace, non-dash character standing before
that position, so scanning left to right is the leftmost-match rule). -/
def stripCore : List Char → List Char
  | [] => []
  | c :: rest => if pointsSuffixMatch (c :: rest) then [] else c :: stripCore rest

/-- Python `str.strip()` restricted to the whitespace class above. -/
def pyStrip (s : String) : String :=
  String.mk ((skipWs (skipWs s.data.reverse).reverse))

/-- Python `str.lower()`, characterwise (the callers only compare against
the ASCII literal `"nan"`). -/
def pyLower (s : String) : String :=
  String.mk (s.data.map Char.toLower)

/-- `strip_points_label(raw) = _POINTS_SUFFIX.sub("", raw).strip()`. -/
def strip_points_label (raw : String) : String :=
  pyStrip (String.mk (stripCore raw.data))

/-- Modelled from the spec: the claim's version of the suffix pattern, in
which the `points`/`point` word is OPTIONAL (`...digits, optional
"points"/"point" word, optional trailing whitespace, end of string`).
Identical to `pointsSuffixMatch` except that after the digits the list may
also simply be all whitespace. -/
def claimSuffixMatch (l : List Char) : Bool :=
  match skipWs l with
  | [] => false
  | c :: r =>
      isDash c &&
        (let r2 := skipWs r
         let p := takeDigits r2
         decide (0 < p.1) &&
           (let r4 := skipWs p.2
            r4.isEmpty || matchWordTail r4))

/-- Modelled from the spec: deletion at the leftmost `claimSuffixMatch`. -/
def claimStripCore : List Char → List Char
  | [] => []
  | c :: rest => if claimSuffixMatch (c :: rest) then [] else c :: claimStripCore rest

/-- Modelled from the spec: `normalize`'s suffix-stripping step as the claim
states it (points word optional), followed by the same trim. -/
def claimStrip (raw : String) : String :=
  pyStrip (String.mk (claimStripCore raw.data))

/-! ### The static points tables and alias map (`SAY_POINTS`, `MENTION_POINTS`,
`ALIASES` in `db.py`), as association lists with first-match lookup. -/

def SAY_POINTS : List (String × Int) :=
  [("Trillion", 7), ("250", 15), ("Trump", 15), ("ICE / National Guard", 17),
   ("Fentanyl / Cocaine", 18), ("Fraud", 20), ("Hottest", 25), ("DEI / Woke", 26),
   ("Radical Left", 29), ("Nuclear", 25), ("Olympics / World Cup", 30),
   ("The State of the / our Union is Strong", 30), ("Affordability", 32),
   ("Eight War", 32), ("MAHA / Make America Healthy Again", 35), ("Transgender", 34),
   ("Mental Institution", 37), ("Drill Baby Drill", 39), ("Ballroom", 49),
   ("Vaccine / Autism", 48), ("Fake News", 51), ("Highest Inflation", 56),
   ("Somali / Somalia / Somalian", 55), ("Hoax", 60), ("Windmill", 62),
   ("Sleepy Joe", 71), ("Crypto / Bitcoin", 74),
   ("DOGE / Department of Government Efficiency", 74), ("UFC", 75),
   ("TDS / Trump Derangement Syndrome", 82), ("Discombobulator", 88),
   ("Ethereum", 97)]

def MENTION_POINTS : List (String × Int) :=
  [("Biden", 8), ("Marco / Rubio", 31), ("Charlie Kirk", 39), ("President Xi", 43),
   ("Putin", 45), ("Thune", 50), ("Witkoff", 52), ("Hegseth", 58), ("Bessent", 56),
   ("Homan", 60), ("Kristi / Noem", 61), ("Lincoln", 61), ("Kash / Patel", 69),
   ("Obama", 66), ("Pam / Bondi", 66), ("Zelensky", 67), ("Bibi / Netanyahu", 72),
   ("Jared / Kushner", 69), ("Reagan", 71), ("Kamala", 72), ("Clinton", 76),
   ("Elon / Musk", 76), ("Newsom / Newscum", 81), ("Modi", 79), ("Warsh", 85),
   ("Karoline / Leavitt", 86), ("Usha", 84), ("Howard / Lutnick", 82), ("Walz", 86),
   ("Schumer", 86), ("Epstein", 91), ("Pelosi", 91), ("Prince Mohammed", 89),
   ("Keir / Starmer", 93), ("Tulsi / Gabbard", 95), ("Zohran / Mamdani", 92),
   ("Pocahontas", 93), ("Judy Shelton", 99), ("Satoshi", 99)]

def ALIASES : List (String × String) :=
  [("Marco Rubio", "Marco / Rubio"), ("Kristi Noem", "Kristi / Noem"),
   ("Kash Patel", "Kash / Patel"), ("Pam Bondi", "Pam / Bondi"),
   ("Bibi Netanyahu", "Bibi / Netanyahu"), ("Jared Kushner", "Jared / Kushner"),
   ("Elon Musk", "Elon / Musk"), ("Newsom", "Newsom / Newscum"),
   ("Karoline Leavitt", "Karoline / Leavitt"), ("Howard Lutnick", "Howard / Lutnick"),
   ("Keir Starmer", "Keir / Starmer"), ("Tulsi Gabbard", "Tulsi / Gabbard"),
   ("Zohran Mamdani", "Zohran / Mamdani"), ("Woke / DEI", "DEI / Woke")]

/-- `ALL_POINTS = {**SAY_POINTS, **MENTION_POINTS}` (keys are disjoint, so
order of precedence is immaterial; kept for the lock-time frozen-value
statement). -/
def ALL_POINTS : List (String × Int) := SAY_POINTS ++ MENTION_POINTS

/-- `resolve_pick`: strip the points suffix, then alias-substitute. -/
def resolve_pick (pick : String) : String :=
  let p := strip_points_label pick
  ((ALIASES.lookup p).getD p)

/-- `validate_pick(pick) -> (category, points, canonical)`; `None` category
models Python's `None`, and the raw input is returned verbatim on failure. -/
def validate_pick (pick : String) : Option String × Int × String :=
  let canonical := resolve_pick pick
  match SAY_POINTS.lookup canonical with
  | some pts => (some "say", pts, canonical)
  | none =>
    match MENTION_POINTS.lookup canonical with
    | some pts => (some "mention", pts, canonical)
    | none => (none, 0, pick)


/-! ### Table rows (`picks`, `market_snapshots`, `scores` in `init_db`).
`REAL` prices are modelled as rationals; `AUTOINCREMENT` ids as naturals. -/

structure PickRow where
  id : Nat
  timestamp : String
  name : String
  pick : String
  points : Int
  market_ticker : String
  event_ticker : String
  locked_at : String
deriving DecidableEq, Repr

structure SnapshotRow where
  id : Nat
  ticker : String
  event_ticker : String
  title : String
  yes_price : ℚ
  status : String
  result : String
  snapshot_time : String
deriving DecidableEq, Repr

structure ScoreRow where
  name : String
  total_points : Int
  correct_picks : Int
  updated_at : String
deriving DecidableEq, Repr

structure DBState where
  picks : List PickRow
  snapshots : List SnapshotRow
  scores : List ScoreRow
deriving DecidableEq, Repr

/-! ### The latest-per-instrument subquery
`WHERE id IN (SELECT MAX(id) FROM market_snapshots GROUP BY ticker)`. -/

/-- SQL `MAX` over a group of ids (groups are nonempty by construction). -/
def maxNat (l : List Nat) : Nat := l.foldr max 0

/-- The ids of the snapshot rows of one ticker group. -/
def tickerIds (snaps : List SnapshotRow) (t : String) : List Nat :=
  (snaps.filter (fun s => decide (s.ticker = t))).map (fun s => s.id)

/-- `SELECT MAX(id) FROM market_snapshots GROUP BY ticker`: one maximal id
per distinct ticker value. -/
def groupMaxIds (snaps : List SnapshotRow) : List Nat :=
  ((snaps.map (fun s => s.ticker)).dedup).map (fun t => maxNat (tickerIds snaps t))

/-- The subquery `ms`: rows whose id is in the per-ticker maxima. -/
def latestSnapshots (snaps : List SnapshotRow) : List SnapshotRow :=
  snaps.filter (fun s => decide (s.id ∈ groupMaxIds snaps))

/-! ### The LEFT JOIN of `calculate_scores` / `get_pick_details` -/

/-- The join condition
`(p.market_ticker != '' AND p.market_ticker = ms.ticker)
 OR (p.market_ticker = '' AND p.pick = ms.title)`. -/
def joinCond (p : PickRow) (s : SnapshotRow) : Bool :=
  (decide (p.market_ticker ≠ "") && decide (p.market_ticker = s.ticker))
    || (decide (p.market_ticker = "") && decide (p.pick = s.title))

/-- The `ms` rows joined to a pick. -/
def matchingSnaps (snaps : List SnapshotRow) (p : PickRow) : List SnapshotRow :=
  (latestSnapshots snaps).filter (joinCond p)

/-- LEFT JOIN semantics: every matching row, or a single all-NULL row. -/
def pickJoinRows (snaps : List SnapshotRow) (p : PickRow) : List (Option SnapshotRow) :=
  let m := matchingSnaps snaps p
  if m.isEmpty then [none] else m.map some

/-! ### Resolution classification (`_resolved_yes_expr`, `_resolved_no_expr`) -/

/-- `COALESCE(ms.result,'') = 'yes' OR (COALESCE(ms.result,'') = '' AND ms.yes_price >= 0.99)`. -/
def resolvedYes (result : String) (price : ℚ) : Bool :=
  decide (result = "yes") || (decide (result = "") && decide (Rat.divInt 99 100 ≤ price))

/-- `COALESCE(ms.result,'') = 'no' OR (COALESCE(ms.result,'') = '' AND ms.yes_price <= 0.01)`. -/
def resolvedNo (result : String) (price : ℚ) : Bool :=
  decide (result = "no") || (decide (result = "") && decide (price ≤ Rat.divInt 1 100))

/-- The `result` column of `get_pick_details`: `CASE WHEN yes THEN 'yes'
WHEN no THEN 'no' ELSE COALESCE(ms.result,'') END` (`''` means PENDING). -/
def pickResultStr (result : String) (price : ℚ) : String :=
  if resolvedYes result price then "yes"
  else if resolvedNo result price then "no"
  else result

/-- The yes-test applied to a LEFT-JOIN row: on the all-NULL row both SQL
disjuncts are non-true (`COALESCE(NULL,'')='yes'` is false and
`NULL >= 0.99` is NULL). -/
def rowYes : Option SnapshotRow → Bool
  | none => false
  | some s => resolvedYes s.result s.yes_price

/-! ### Aggregation of `calculate_scores` (GROUP BY p.name) -/

/-- `SUM(CASE WHEN yes THEN p.points ELSE 0)` restricted to one pick's rows. -/
def pickPoints (snaps : List SnapshotRow) (p : PickRow) : Int :=
  ((pickJoinRows snaps p).map (fun r => if rowYes r then p.points else 0)).sum

/-- `SUM(CASE WHEN yes THEN 1 ELSE 0)` restricted to one pick's rows. -/
def pickCorrect (snaps : List SnapshotRow) (p : PickRow) : Int :=
  ((pickJoinRows snaps p).map (fun r => if rowYes r then (1 : Int) else 0)).sum

/-- The distinct participant names (the GROUP BY keys). -/
def aggNames (picks : List PickRow) : List String :=
  (picks.map (fun p => p.name)).dedup

/-- One aggregate row `(name, total_points, correct_picks)` per group.  The
`ORDER BY total_points DESC` of the query only permutes these rows and no
statement below depends on their order, so it is not modelled. -/
def calcAgg (picks : List PickRow) (snaps : List SnapshotRow) :
    List (String × Int × Int) :=
  (aggNames picks).map (fun n =>
    (n, ((picks.filter (fun p => decide (p.name = n))).map (pickPoints snaps)).sum,
        ((picks.filter (fun p => decide (p.name = n))).map (pickCorrect snaps)).sum))

/-! ### The `scores` upsert (`INSERT ... ON CONFLICT(name) DO UPDATE`) -/

def upsertScore (sc : List ScoreRow) (n : String) (tp cp : Int) (now : String) :
    List ScoreRow :=
  if sc.any (fun r => decide (r.name = n)) then
    sc.map (fun r =>
      if r.name = n then
        { r with total_points := tp, correct_picks := cp, updated_at := now }
      else r)
  else sc ++ [⟨n, tp, cp, now⟩]

def upsertScores (sc : List ScoreRow) (agg : List (String × Int × Int))
    (now : String) : List ScoreRow :=
  agg.foldl (fun acc e => upsertScore acc e.1 e.2.1 e.2.2 now) sc

/-- `calculate_scores`: recompute the aggregate from the current picks and
snapshots and upsert one row per participant; picks and snapshots are read
only. -/
def calculate_scores (st : DBState) (now : String) : DBState :=
  { st with scores := upsertScores st.scores (calcAgg st.picks st.snapshots) now }

/-- `clear_picks`: `DELETE FROM picks`. -/
def clear_picks (st : DBState) : DBState := { st with picks := [] }

/-- `get_leaderboard`: `SELECT name, total_points, correct_picks, updated_at
FROM scores ORDER BY total_points DESC`.  The ORDER BY permutes rows only;
no statement below depends on the order, so the rows are returned as stored. -/
def get_leaderboard (st : DBState) : List ScoreRow := st.scores

/-! ### `save_picks` and `backfill_tickers` -/

/-- `EVENT_TICKERS` from `kalshi.py`. -/
def EVENT_TICKERS : List (String × String) :=
  [("say", "KXTRUMPMENTION-26FEB28"), ("mention", "KXTRUMPMENTION-26MAR02")]

/-- One uploaded spreadsheet row after the column discovery of `save_picks`
(`name_col`, `ts_col`, and the sorted `pick_cols`); the pandas column
matching itself is presentation glue and is not modelled. -/
structure InputRow where
  name : String
  timestamp : String
  cells : List String
deriving DecidableEq, Repr

/-- The body of the inner loop of `save_picks` for one pick cell: skip blank
or `"nan"` cells, skip cells `validate_pick` rejects, otherwise build the
row that is inserted (id assigned later by the autoincrement). -/
def processCell (title_to_ticker : List (String × List (String × String)))
    (ts name now : String) (cell : String) : Option PickRow :=
  let raw_val := pyStrip cell
  if raw_val = "" || pyLower raw_val = "nan" then none
  else
    match validate_pick raw_val with
    | (none, _, _) => none
    | (some category, pts, canonical) =>
        let event_ticker := (EVENT_TICKERS.lookup category).getD ""
        let ticker_map := (title_to_ticker.lookup category).getD []
        let market_ticker := (ticker_map.lookup canonical).getD ""
        some ⟨0, ts, name, canonical, pts, market_ticker, event_ticker, now⟩

/-- The body of the outer loop of `save_picks` for one uploaded row: skip
rows with a blank name, otherwise process each pick cell in order. -/
def processInputRow (title_to_ticker : List (String × List (String × String)))
    (now : String) (r : InputRow) : List PickRow :=
  let name := pyStrip r.name
  if name = "" then []
  else r.cells.filterMap (processCell title_to_ticker r.timestamp name now)

/-- All rows inserted by one `save_picks` call, before id assignment. -/
def insertedPicks (df : List InputRow)
    (title_to_ticker : List (String × List (String × String)))
    (now : String) : List PickRow :=
  df.flatMap (processInputRow title_to_ticker now)

/-- Autoincrement id assignment for a batch of inserted rows. -/
def numberFrom (base : Nat) (rows : List PickRow) : List PickRow :=
  rows.enum.map (fun e => { e.2 with id := base + e.1 })

def maxPickId (picks : List PickRow) : Nat := maxNat (picks.map (fun p => p.id))

/-- `save_picks`: append one row per accepted pick; nothing else changes. -/
def save_picks (df : List InputRow)
    (title_to_ticker : List (String × List (String × String)))
    (now : String) (st : DBState) : DBState :=
  { st with
    picks := st.picks ++ numberFrom (maxPickId st.picks + 1) (insertedPicks df title_to_ticker now) }

/-- The inner loop of `backfill_tickers` over `EVENT_TICKERS.items()`: take
the first event group whose ticker matches the pick's `event_ticker` (or
any group when it is empty) and whose map yields a non-empty ticker;
`break` fires only on a non-empty ticker. -/
def backfillFind (title_to_ticker : List (String × List (String × String)))
    (p : PickRow) : List (String × String) → Option (String × String)
  | [] => none
  | (label, et) :: rest =>
      if et = p.event_ticker ∨ p.event_ticker = "" then
        let ticker := (((title_to_ticker.lookup label).getD []).lookup p.pick).getD ""
        if ticker ≠ "" then some (ticker, et)
        else backfillFind title_to_ticker p rest
      else backfillFind title_to_ticker p rest

/-- `backfill_tickers` on one pick row: only rows with empty `market_ticker`
are selected, and only `market_ticker` / `event_ticker` are updated. -/
def backfillPick (title_to_ticker : List (String × List (String × String)))
    (p : PickRow) : PickRow :=
  if p.market_ticker = "" then
    match backfillFind title_to_ticker p EVENT_TICKERS with
    | some (tk, et) => { p with market_ticker := tk, event_ticker := et }
    | none => p
  else p

def backfill_tickers (title_to_ticker : List (String × List (String × String)))
    (st : DBState) : DBState :=
  { st with picks := st.picks.map (backfillPick title_to_ticker) }

/-! ### Projections and helpers used by the statements -/

/-- The persistent content of a `scores` row that the claims compare
(`updated_at` is a wall-clock timestamp and varies between runs). -/
def scoreVals (sc : List ScoreRow) : List (String × Int × Int) :=
  sc.map (fun r => (r.name, r.total_points, r.correct_picks))

/-- First-match lookup of a participant's `(total_points, correct_picks)`. -/
def findVal (l : List (String × Int × Int)) (n : String) : Option (Int × Int) :=
  match l with
  | [] => none
  | e :: r => if e.1 = n then some e.2 else findVal r n

/-- `upsertScore` seen through `scoreVals`. -/
def upsertVal (l : List (String × Int × Int)) (n : String) (v : Int × Int) :
    List (String × Int × Int) :=
  if l.any (fun e => decide (e.1 = n)) then
    l.map (fun e => if e.1 = n then (n, v.1, v.2) else e)
  else l ++ [(n, v.1, v.2)]

/-- `upsertScores` seen through `scoreVals`. -/
def upsertVals (l : List (String × Int × Int)) (agg : List (String × Int × Int)) :
    List (String × Int × Int) :=
  agg.foldl (fun acc e => upsertVal acc e.1 e.2) l

/-- Every field of a pick except the two backfillable ticker columns. -/
def pickFrozenView (p : PickRow) : Nat × String × String × String × Int × String :=
  (p.id, p.timestamp, p.name, p.pick, p.points, p.locked_at)

/-! ### Concrete rows and states used by witnesses and counterexamples -/

/-- A pick locked to instrument `TICK-A` whose text coincides with the
title of a different instrument's snapshot. -/
def tickerPickA : PickRow :=
  ⟨1, "t0", "Alice", "Trillion", 7, "TICK-A", "KXTRUMPMENTION-26FEB28", "t0"⟩

/-- A snapshot of instrument `TICK-B` whose title coincides with
`tickerPickA.pick`. -/
def otherInstrumentSnap : SnapshotRow :=
  ⟨1, "TICK-B", "KXTRUMPMENTION-26FEB28", "Trillion", 1, "settled", "yes", "t0"⟩

/-- Two snapshots of one instrument sharing `snapshot_time`, inserted with
prices 0.40 then 0.95. -/
def seqSnapA : SnapshotRow := ⟨1, "TICK-X", "EV", "Trillion", Rat.divInt 2 5, "active", "", "t1"⟩
def seqSnapB : SnapshotRow := ⟨2, "TICK-X", "EV", "Trillion", Rat.divInt 19 20, "active", "", "t1"⟩

/-- A pick with empty `market_ticker` whose text equals a title listed
under two different instrument ids. -/
def titleOnlyPick : PickRow := ⟨1, "t0", "Al", "Trump", 15, "", "", "t0"⟩
def dupTitleSnapX : SnapshotRow := ⟨1, "TICK-X", "EV1", "Trump", 1, "settled", "yes", "t1"⟩
def dupTitleSnapY : SnapshotRow := ⟨2, "TICK-Y", "EV2", "Trump", 1, "settled", "yes", "t1"⟩

/-- A state with one pick that resolves WON against its snapshot and an
empty scores table. -/
def wonState : DBState :=
  { picks := [⟨1, "t0", "Alice", "Trillion", 7, "TICK-A", "KXTRUMPMENTION-26FEB28", "t0"⟩],
    snapshots := [⟨1, "TICK-A", "KXTRUMPMENTION-26FEB28", "Trillion", 1, "settled", "yes", "t1"⟩],
    scores := [] }


/-! ### Helper lemmas: `maxNat` and the latest-per-ticker subquery -/

theorem le_maxNat {l : List Nat} {x : Nat} (h : x ∈ l) : x ≤ maxNat l := by
  induction l with
  | nil => cases h
  | cons a t ih =>
    rcases List.mem_cons.mp h with h | h
    · subst h; exact le_max_left _ _
    · exact le_trans (ih h) (le_max_right _ _)

theorem maxNat_mem {l : List Nat} (h : l ≠ []) : maxNat l ∈ l := by
  induction l with
  | nil => exact absurd rfl h
  | cons a t ih =>
    by_cases ht : t = []
    · subst ht; simp [maxNat]
    · have hm := ih ht
      have : maxNat (a :: t) = max a (maxNat t) := rfl
      rw [this]
      rcases le_total a (maxNat t) with hle | hle
      · rw [max_eq_right hle]; exact List.mem_cons_of_mem _ hm
      · rw [max_eq_left hle]; exact List.mem_cons_self _ _

theorem mem_tickerIds {snaps : List SnapshotRow} {tk : String} {x : Nat} :
    x ∈ tickerIds snaps tk ↔ ∃ s ∈ snaps, s.ticker = tk ∧ s.id = x := by
  simp only [tickerIds, List.mem_map, List.mem_filter, decide_eq_true_eq]
  constructor
  · rintro ⟨s, ⟨hs, ht⟩, hx⟩; exact ⟨s, hs, ht, hx⟩
  · rintro ⟨s, hs, ht, hx⟩; exact ⟨s, ⟨hs, ht⟩, hx⟩

theorem mem_groupMaxIds {snaps : List SnapshotRow} {m : Nat} :
    m ∈ groupMaxIds snaps ↔
      ∃ tk, (∃ u ∈ snaps, u.ticker = tk) ∧ m = maxNat (tickerIds snaps tk) := by
  simp only [groupMaxIds, List.mem_map, List.mem_dedup]
  constructor
  · rintro ⟨tk, htk, hm⟩
    obtain ⟨u, hu, hut⟩ := htk
    exact ⟨tk, ⟨u, hu, hut⟩, hm.symm⟩
  · rintro ⟨tk, ⟨u, hu, hut⟩, hm⟩
    exact ⟨tk, ⟨u, hu, hut⟩, hm.symm⟩

theorem tickerIds_ne_nil {snaps : List SnapshotRow} {u : SnapshotRow}
    (hu : u ∈ snaps) : tickerIds snaps u.ticker ≠ [] := by
  intro hnil
  have : u.id ∈ tickerIds snaps u.ticker := mem_tickerIds.mpr ⟨u, hu, rfl, rfl⟩
  rw [hnil] at this
  cases this

/-- Membership characterization of the subquery
`WHERE id IN (SELECT MAX(id) FROM market_snapshots GROUP BY ticker)`:
under unique ids it selects exactly the rows that dominate their own
ticker group by id. -/
theorem mem_latest_iff {snaps : List SnapshotRow}
    (hid : (snaps.map (fun s => s.id)).Nodup) (s : SnapshotRow) :
    s ∈ latestSnapshots snaps ↔
      s ∈ snaps ∧ ∀ t ∈ snaps, t.ticker = s.ticker → t.id ≤ s.id := by
  have hinj : ∀ x ∈ snaps, ∀ y ∈ snaps, x.id = y.id → x = y := by
    intro x hx y hy hxy
    exact List.inj_on_of_nodup_map hid hx hy hxy
  constructor
  · intro hmem
    obtain ⟨hs, hsid⟩ : s ∈ snaps ∧ s.id ∈ groupMaxIds snaps := by
      simpa [latestSnapshots, List.mem_filter] using hmem
    refine ⟨hs, ?_⟩
    obtain ⟨tk, ⟨u, hu, hut⟩, hmax⟩ := mem_groupMaxIds.mp hsid
    have hne : tickerIds snaps tk ≠ [] := by rw [← hut]; exact tickerIds_ne_nil hu
    obtain ⟨v, hv, hvt, hvid⟩ := mem_tickerIds.mp (maxNat_mem hne)
    have hveq : v = s := hinj v hv s hs (by rw [hvid, ← hmax])
    intro t ht htt
    have htmem : t.id ∈ tickerIds snaps tk := by
      refine mem_tickerIds.mpr ⟨t, ht, ?_, rfl⟩
      rw [htt, ← hvt, hveq]
    calc t.id ≤ maxNat (tickerIds snaps tk) := le_maxNat htmem
      _ = s.id := hmax.symm
  · rintro ⟨hs, hdom⟩
    have h1 : s.id ∈ tickerIds snaps s.ticker := mem_tickerIds.mpr ⟨s, hs, rfl, rfl⟩
    have hle : s.id ≤ maxNat (tickerIds snaps s.ticker) := le_maxNat h1
    have hne : tickerIds snaps s.ticker ≠ [] := tickerIds_ne_nil hs
    obtain ⟨v, hv, hvt, hvid⟩ := mem_tickerIds.mp (maxNat_mem hne)
    have hge : maxNat (tickerIds snaps s.ticker) ≤ s.id := by
      rw [← hvid]; exact hdom v hv hvt
    have heq : s.id = maxNat (tickerIds snaps s.ticker) := le_antisymm hle hge
    have : s.id ∈ groupMaxIds snaps := mem_groupMaxIds.mpr ⟨s.ticker, ⟨s, hs, rfl⟩, heq⟩
    simp [latestSnapshots, List.mem_filter, hs, this]

theorem length_le_one_of_nodup {α : Type} {l : List α} (hn : l.Nodup)
    (huniq : ∀ a ∈ l, ∀ b ∈ l, a = b) : l.length ≤ 1 := by
  cases l with
  | nil => simp
  | cons a t =>
    cases t with
    | nil => simp
    | cons b u =>
      have hab : a = b :=
        huniq a (List.mem_cons_self _ _) b (List.mem_cons_of_mem _ (List.mem_cons_self _ _))
      rw [List.nodup_cons] at hn
      exact absurd (hab ▸ List.mem_cons_self b u) hn.1

theorem length_eq_one_of_nodup {α : Type} {l : List α} (hn : l.Nodup)
    (hex : ∃ x, x ∈ l) (huniq : ∀ a ∈ l, ∀ b ∈ l, a = b) : l.length = 1 := by
  obtain ⟨x, hx⟩ := hex
  have hle := length_le_one_of_nodup hn huniq
  have hpos : 0 < l.length := List.length_pos_of_mem hx
  omega

theorem latest_nodup {snaps : List SnapshotRow}
    (hid : (snaps.map (fun s => s.id)).Nodup) : (latestSnapshots snaps).Nodup :=
  (hid.of_map _).filter _

theorem joinCond_of_ticker {p : PickRow} (h : p.market_ticker ≠ "")
    (s : SnapshotRow) :
    joinCond p s = decide (p.market_ticker = s.ticker) := by
  simp [joinCond, h]

/-- C2: for a pick whose `market_ticker` is non-empty the join condition of
`calculate_scores` / `get_pick_details` degenerates to instrument-id
equality — the title disjunct is unreachable — and when no current snapshot
carries that instrument id the LEFT JOIN yields only the all-NULL row
(PENDING), with no fallback to the title join. -/
theorem instrument_id_join_exclusive (snaps : List SnapshotRow) (p : PickRow)
    (h : p.market_ticker ≠ "") :
    matchingSnaps snaps p
        = (latestSnapshots snaps).filter (fun s => decide (p.market_ticker = s.ticker))
      ∧ ((∀ s ∈ latestSnapshots snaps, s.ticker ≠ p.market_ticker) →
          pickJoinRows snaps p = [none]) := by
  have hfc : matchingSnaps snaps p
      = (latestSnapshots snaps).filter (fun s => decide (p.market_ticker = s.ticker)) := by
    unfold matchingSnaps
    exact List.filter_congr (fun s _ => joinCond_of_ticker h s)
  refine ⟨hfc, fun hnone => ?_⟩
  have hempty : matchingSnaps snaps p = [] := by
    rw [hfc, List.filter_eq_nil_iff]
    intro s hs
    simp only [decide_eq_true_eq]
    exact fun heq => hnone s hs heq.symm
  simp [pickJoinRows, hempty]

/-- C2 witness: a snapshot of a *different* instrument whose title equals
the pick's text is ignored and the pick stays unjoined. -/
theorem instrument_id_join_exclusive_witness :
    pickJoinRows [otherInstrumentSnap] tickerPickA = [none] :=
  (instrument_id_join_exclusive [otherInstrumentSnap] tickerPickA (by decide)).2
    (by decide)

theorem latest_retime (snaps : List SnapshotRow) (f : String → String) :
    latestSnapshots (snaps.map (fun s => { s with snapshot_time := f s.snapshot_time }))
      = (latestSnapshots snaps).map (fun s => { s with snapshot_time := f s.snapshot_time }) := by
  have hticker : (snaps.map (fun s => { s with snapshot_time := f s.snapshot_time })).map
      (fun s => s.ticker) = snaps.map (fun s => s.ticker) := by
    simp [List.map_map, Function.comp]
  have htids : ∀ t, tickerIds (snaps.map (fun s => { s with snapshot_time := f s.snapshot_time })) t
      = tickerIds snaps t := by
    intro t
    unfold tickerIds
    rw [List.filter_map, List.map_map]
    have h1 : ((fun s : SnapshotRow => decide (s.ticker = t)) ∘
        (fun s => { s with snapshot_time := f s.snapshot_time }))
        = (fun s : SnapshotRow => decide (s.ticker = t)) := rfl
    have h2 : ((fun s : SnapshotRow => s.id) ∘
        (fun s => { s with snapshot_time := f s.snapshot_time }))
        = (fun s : SnapshotRow => s.id) := rfl
    rw [h1, h2]
  have hmax : groupMaxIds (snaps.map (fun s => { s with snapshot_time := f s.snapshot_time }))
      = groupMaxIds snaps := by
    unfold groupMaxIds
    rw [hticker]
    simp only [htids]
  unfold latestSnapshots
  rw [hmax, List.filter_map]
  have h3 : ((fun s : SnapshotRow => decide (s.id ∈ groupMaxIds snaps)) ∘
      (fun s => { s with snapshot_time := f s.snapshot_time }))
      = (fun s : SnapshotRow => decide (s.id ∈ groupMaxIds snaps)) := rfl
  rw [h3]

/-- C3: the snapshot set that resolution reads contains, per instrument id,
exactly the row with the maximal internal id among that instrument's rows
(given unique ids): membership is characterized purely by id domination,
exactly one current row exists per instrument that has any row at all, and
rewriting every `snapshot_time` arbitrarily leaves the selection unchanged
(ties in `observedAt` are broken by insertion order, never by timestamp). -/
theorem latest_per_instrument_max_id (snaps : List SnapshotRow)
    (hid : (snaps.map (fun s => s.id)).Nodup) :
    (∀ s, s ∈ latestSnapshots snaps ↔
        s ∈ snaps ∧ ∀ t ∈ snaps, t.ticker = s.ticker → t.id ≤ s.id)
    ∧ (∀ tk, (∃ u ∈ snaps, u.ticker = tk) →
        ((latestSnapshots snaps).filter (fun s => decide (s.ticker = tk))).length = 1)
    ∧ (∀ f : String → String,
        latestSnapshots (snaps.map (fun s => { s with snapshot_time := f s.snapshot_time }))
          = (latestSnapshots snaps).map (fun s => { s with snapshot_time := f s.snapshot_time })) := by
  have hinj : ∀ x ∈ snaps, ∀ y ∈ snaps, x.id = y.id → x = y := by
    intro x hx y hy hxy
    exact List.inj_on_of_nodup_map hid hx hy hxy
  refine ⟨mem_latest_iff hid, ?_, fun f => latest_retime snaps f⟩
  rintro tk ⟨u, hu, hut⟩
  apply length_eq_one_of_nodup ((latest_nodup hid).filter _)
  · have hne : tickerIds snaps tk ≠ [] := by rw [← hut]; exact tickerIds_ne_nil hu
    obtain ⟨v, hv, hvt, hvid⟩ := mem_tickerIds.mp (maxNat_mem hne)
    refine ⟨v, List.mem_filter.mpr ⟨?_, by simp [hvt]⟩⟩
    refine (mem_latest_iff hid v).mpr ⟨hv, fun t ht htt => ?_⟩
    have : t.id ∈ tickerIds snaps tk := mem_tickerIds.mpr ⟨t, ht, by rw [htt, hvt], rfl⟩
    rw [hvid]
    exact le_maxNat this
  · intro a ha b hb
    obtain ⟨hal, hat⟩ := List.mem_filter.mp ha
    obtain ⟨hbl, hbt⟩ := List.mem_filter.mp hb
    have hat' : a.ticker = tk := by simpa using hat
    have hbt' : b.ticker = tk := by simpa using hbt
    obtain ⟨has, hadom⟩ := (mem_latest_iff hid a).mp hal
    obtain ⟨hbs, hbdom⟩ := (mem_latest_iff hid b).mp hbl
    have h1 : a.id ≤ b.id := hbdom a has (by rw [hat', hbt'])
    have h2 : b.id ≤ a.id := hadom b hbs (by rw [hat', hbt'])
    exact hinj a has b hbs (le_antisymm h1 h2)

/-- C3 witness: of two snapshots of one instrument sharing a timestamp,
inserted with prices 0.40 then 0.95, only the 0.95 row is current. -/
theorem latest_per_instrument_max_id_witness :
    latestSnapshots [seqSnapA, seqSnapB] = [seqSnapB]
    ∧ ((latestSnapshots [seqSnapA, seqSnapB]).filter
        (fun s => decide (s.ticker = "TICK-X"))).length = 1 :=
  ⟨by decide,
   (latest_per_instrument_max_id [seqSnapA, seqSnapB] (by decide)).2.1 "TICK-X"
     ⟨seqSnapA, by decide, by decide⟩⟩

theorem rowYes_some (s : SnapshotRow) :
    rowYes (some s) = resolvedYes s.result s.yes_price := rfl

theorem rowYes_none : rowYes none = false := rfl

theorem wonSum (l : List SnapshotRow) (pts : Int) :
    ((l.map some).map (fun r => if rowYes r then pts else 0)).sum
      = ((l.filter (fun s => resolvedYes s.result s.yes_price)).length : Int) * pts := by
  induction l with
  | nil => simp
  | cons s t ih =>
    cases hb : resolvedYes s.result s.yes_price with
    | true =>
      simp only [List.map_cons, List.sum_cons, rowYes_some, hb, if_true, ih,
        List.filter_cons, List.length_cons]
      push_cast
      ring
    | false =>
      simp only [List.map_cons, List.sum_cons, rowYes_some, hb, List.filter_cons,
        Bool.false_eq_true, if_false, zero_add]
      exact ih

theorem pickPoints_eq (snaps : List SnapshotRow) (p : PickRow) :
    pickPoints snaps p
      = (((matchingSnaps snaps p).filter
          (fun s => resolvedYes s.result s.yes_price)).length : Int) * p.points := by
  unfold pickPoints pickJoinRows
  cases hm : matchingSnaps snaps p with
  | nil => simp [rowYes_none]
  | cons a t =>
    simp only [List.isEmpty_cons, if_neg Bool.false_ne_true]
    exact wonSum (a :: t) p.points

theorem pickCorrect_eq (snaps : List SnapshotRow) (p : PickRow) :
    pickCorrect snaps p
      = (((matchingSnaps snaps p).filter
          (fun s => resolvedYes s.result s.yes_price)).length : Int) := by
  unfold pickCorrect pickJoinRows
  cases hm : matchingSnaps snaps p with
  | nil => simp [rowYes_none]
  | cons a t =>
    simp only [List.isEmpty_cons, if_neg Bool.false_ne_true]
    have := wonSum (a :: t) 1
    simpa using this

/-- C5 amended: a pick with a non-empty `market_ticker` joins at most one
current snapshot row (given unique snapshot ids), and in general a pick
contributes `points` once per joined row that tests resolved-yes — so a
title-fallback pick whose text appears as the title of several instruments'
current rows is counted once per such instrument, not at most once. -/
theorem pick_join_multiplicity (snaps : List SnapshotRow) (p : PickRow)
    (hid : (snaps.map (fun s => s.id)).Nodup) :
    (p.market_ticker ≠ "" → (matchingSnaps snaps p).length ≤ 1)
    ∧ pickPoints snaps p
        = (((matchingSnaps snaps p).filter
            (fun s => resolvedYes s.result s.yes_price)).length : Int) * p.points
    ∧ pickCorrect snaps p
        = (((matchingSnaps snaps p).filter
            (fun s => resolvedYes s.result s.yes_price)).length : Int) := by
  refine ⟨?_, pickPoints_eq snaps p, pickCorrect_eq snaps p⟩
  intro h
  have hinj : ∀ x ∈ snaps, ∀ y ∈ snaps, x.id = y.id → x = y := by
    intro x hx y hy hxy
    exact List.inj_on_of_nodup_map hid hx hy hxy
  apply length_le_one_of_nodup ((latest_nodup hid).filter _)
  intro a ha b hb
  obtain ⟨hal, haj⟩ := List.mem_filter.mp ha
  obtain ⟨hbl, hbj⟩ := List.mem_filter.mp hb
  rw [joinCond_of_ticker h] at haj hbj
  have hat : p.market_ticker = a.ticker := of_decide_eq_true haj
  have hbt : p.market_ticker = b.ticker := of_decide_eq_true hbj
  obtain ⟨has, hadom⟩ := (mem_latest_iff hid a).mp hal
  obtain ⟨hbs, hbdom⟩ := (mem_latest_iff hid b).mp hbl
  have h1 : a.id ≤ b.id := hbdom a has (by rw [← hat, ← hbt])
  have h2 : b.id ≤ a.id := hadom b hbs (by rw [← hat, ← hbt])
  exact hinj a has b hbs (le_antisymm h1 h2)

/-- C5 witness: instantiation of the amended multiplicity bound. -/
theorem pick_join_multiplicity_witness :
    (matchingSnaps [otherInstrumentSnap] tickerPickA).length ≤ 1 :=
  (pick_join_multiplicity [otherInstrumentSnap] tickerPickA (by decide)).1 (by decide)

/-- C5 counterexample: one pick with empty `market_ticker` whose text is the
title of the current snapshots of two distinct instruments joins two rows
and contributes its 15 points twice (`total_points = 30`, `correct_picks =
2`), refuting "at most one joined row / at most one contribution". -/
theorem title_join_double_count :
    (pickJoinRows [dupTitleSnapX, dupTitleSnapY] titleOnlyPick).length = 2
    ∧ titleOnlyPick.points = 15
    ∧ calcAgg [titleOnlyPick] [dupTitleSnapX, dupTitleSnapY] = [("Al", 30, 2)] := by
  decide

/-- C1: a joined pick is classified WON (`'yes'`) iff the snapshot's result
is `"yes"` or its result is empty with `yes_price >= 0.99`, LOST (`'no'`)
iff the result is `"no"` or empty with `yes_price <= 0.01`, and PENDING
(`''`) otherwise — so with empty result, price exactly 99/100 is WON,
989/1000 is PENDING, exactly 1/100 is LOST and 11/1000 is PENDING. -/
theorem snapshot_classification (result : String) (price : ℚ)
    (h : result = "yes" ∨ result = "no" ∨ result = "") :
    (pickResultStr result price = "yes" ↔
      (result = "yes" ∨ (result = "" ∧ Rat.divInt 99 100 ≤ price)))
    ∧ (pickResultStr result price = "no" ↔
      (result = "no" ∨ (result = "" ∧ price ≤ Rat.divInt 1 100)))
    ∧ (pickResultStr result price = "" ↔
      (result = "" ∧ Rat.divInt 1 100 < price ∧ price < Rat.divInt 99 100))
    ∧ (resolvedYes result price = true ↔ pickResultStr result price = "yes") := by
  have hnum : Rat.divInt 1 100 < Rat.divInt 99 100 := by decide
  rcases h with h | h | h <;> subst h
  · simp [pickResultStr, resolvedYes, resolvedNo]
  · simp [pickResultStr, resolvedYes, resolvedNo]
  · rcases le_or_lt (Rat.divInt 99 100) price with h99 | h99
    · have h1 : ¬ price ≤ Rat.divInt 1 100 := fun hc => absurd (le_trans h99 hc) (not_le.mpr hnum)
      simp [pickResultStr, resolvedYes, resolvedNo, h99, h1, not_lt.mpr h99]
    · rcases le_or_lt price (Rat.divInt 1 100) with h1 | h1
      · simp [pickResultStr, resolvedYes, resolvedNo, not_le.mpr h99, h1, not_lt.mpr h1]
      · simp [pickResultStr, resolvedYes, resolvedNo, not_le.mpr h99, not_le.mpr h1, h99, h1]

/-- C1 witness: the four boundary prices with empty result. -/
theorem snapshot_classification_witness :
    pickResultStr "" (Rat.divInt 99 100) = "yes"
    ∧ pickResultStr "" (Rat.divInt 989 1000) = ""
    ∧ pickResultStr "" (Rat.divInt 1 100) = "no"
    ∧ pickResultStr "" (Rat.divInt 11 1000) = "" :=
  ⟨((snapshot_classification "" (Rat.divInt 99 100) (Or.inr (Or.inr rfl))).1).mpr
      (Or.inr ⟨rfl, by decide⟩),
   ((snapshot_classification "" (Rat.divInt 989 1000) (Or.inr (Or.inr rfl))).2.2.1).mpr
      ⟨rfl, by decide, by decide⟩,
   ((snapshot_classification "" (Rat.divInt 1 100) (Or.inr (Or.inr rfl))).2.1).mpr
      (Or.inr ⟨rfl, by decide⟩),
   ((snapshot_classification "" (Rat.divInt 11 1000) (Or.inr (Or.inr rfl))).2.2.1).mpr
      ⟨rfl, by decide, by decide⟩⟩

/-- C10: when the (alias-resolved, suffix-stripped) text is in neither
points table, `validate_pick` returns `(None, 0, raw)` with the original
raw string — not the normalized form — and, being a pure function, it is
deterministic. -/
theorem validate_pick_not_found (s : String)
    (h : SAY_POINTS.lookup (resolve_pick s) = none
       ∧ MENTION_POINTS.lookup (resolve_pick s) = none) :
    validate_pick s = (none, 0, s) ∧ validate_pick s = validate_pick s := by
  refine ⟨?_, rfl⟩
  unfold validate_pick
  simp only [h.1, h.2]

/-- C10 witness: an unknown pick with a points suffix comes back verbatim,
not in its stripped form `"zzz"`. -/
theorem validate_pick_not_found_witness :
    validate_pick "zzz — 5 points" = (none, 0, "zzz — 5 points") :=
  (validate_pick_not_found "zzz — 5 points" ⟨by decide, by decide⟩).1

/-- C6 amended: clearing all picks and re-running `calculate_scores` leaves
the `scores` table exactly as it was — the empty aggregate upserts nothing
and deletes nothing — so the leaderboard still returns the stale
ScoreRecords instead of an empty set. -/
theorem clear_then_resolve_keeps_stale_scores (st : DBState) (now : String) :
    (calculate_scores (clear_picks st) now).scores = st.scores
    ∧ get_leaderboard (calculate_scores (clear_picks st) now) = get_leaderboard st :=
  ⟨rfl, rfl⟩

/-- C6 counterexample: resolve a WON pick, clear all picks, resolve again —
the leaderboard still shows Alice's ScoreRecord rather than being empty. -/
theorem stale_scores_after_clear :
    get_leaderboard (calculate_scores (clear_picks (calculate_scores wonState "t2")) "t3")
      = [⟨"Alice", 7, 1, "t2"⟩]
    ∧ get_leaderboard (calculate_scores (clear_picks (calculate_scores wonState "t2")) "t3")
        ≠ ([] : List ScoreRow) := by
  decide

/-! ### Helper lemmas: the `scores` upsert seen through `scoreVals` -/

theorem scoreVals_fst (sc : List ScoreRow) :
    (scoreVals sc).map Prod.fst = sc.map (fun r => r.name) := by
  unfold scoreVals
  rw [List.map_map]
  rfl

theorem scoreVals_upsertScore (sc : List ScoreRow) (n : String) (tp cp : Int)
    (now : String) :
    scoreVals (upsertScore sc n tp cp now) = upsertVal (scoreVals sc) n (tp, cp) := by
  unfold upsertScore upsertVal
  have hany : (scoreVals sc).any (fun e => decide (e.1 = n))
      = sc.any (fun r => decide (r.name = n)) := by
    unfold scoreVals
    induction sc with
    | nil => rfl
    | cons r t ih => simp [List.any_cons, ih]
  rw [hany]
  by_cases h : sc.any (fun r => decide (r.name = n)) = true
  · rw [if_pos h, if_pos h]
    unfold scoreVals
    rw [List.map_map, List.map_map]
    apply List.map_congr_left
    intro r _
    by_cases hn : r.name = n
    · simp [hn]
    · simp [hn]
  · rw [if_neg h, if_neg h]
    unfold scoreVals
    rw [List.map_append]
    rfl

theorem scoreVals_upsertScores (sc : List ScoreRow)
    (agg : List (String × Int × Int)) (now : String) :
    scoreVals (upsertScores sc agg now) = upsertVals (scoreVals sc) agg := by
  induction agg generalizing sc with
  | nil => rfl
  | cons e t ih =>
    obtain ⟨n, tp, cp⟩ := e
    have h1 : upsertScores sc ((n, tp, cp) :: t) now
        = upsertScores (upsertScore sc n tp cp now) t now := rfl
    have h2 : upsertVals (scoreVals sc) ((n, tp, cp) :: t)
        = upsertVals (upsertVal (scoreVals sc) n (tp, cp)) t := rfl
    rw [h1, h2, ih, scoreVals_upsertScore]

theorem findVal_map_update (l : List (String × Int × Int)) (n : String)
    (v : Int × Int) (h : l.any (fun e => decide (e.1 = n)) = true) :
    findVal (l.map (fun e => if e.1 = n then (n, v.1, v.2) else e)) n = some v := by
  induction l with
  | nil => simp at h
  | cons e t ih =>
    by_cases hn : e.1 = n
    · simp [findVal, hn]
    · have h' : t.any (fun e => decide (e.1 = n)) = true := by
        simpa [List.any_cons, hn] using h
      simpa [findVal, hn] using ih h'

theorem findVal_append (l tail : List (String × Int × Int)) (n : String) :
    findVal (l ++ tail) n
      = match findVal l n with
        | some v => some v
        | none => findVal tail n := by
  induction l with
  | nil => rfl
  | cons e t ih =>
    by_cases hn : e.1 = n
    · simp [findVal, hn]
    · simpa [findVal, hn] using ih

theorem findVal_upsertVal_self (l : List (String × Int × Int)) (n : String)
    (v : Int × Int) : findVal (upsertVal l n v) n = some v := by
  unfold upsertVal
  by_cases h : l.any (fun e => decide (e.1 = n)) = true
  · rw [if_pos h]
    exact findVal_map_update l n v h
  · rw [if_neg h, findVal_append]
    have hnone : findVal l n = none := by
      induction l with
      | nil => rfl
      | cons e t ih =>
        rw [List.any_cons] at h
        by_cases hn : e.1 = n
        · exact absurd (by simp [hn]) h
        · have ht : ¬ t.any (fun e => decide (e.1 = n)) = true := by
            intro hc
            exact h (by simp [hc])
          simpa [findVal, hn] using ih ht
    rw [hnone]
    simp [findVal]

theorem findVal_cons (e : String × Int × Int) (r : List (String × Int × Int))
    (n : String) :
    findVal (e :: r) n = if e.1 = n then some e.2 else findVal r n := rfl

theorem findVal_map_update_other (l : List (String × Int × Int)) (n m : String)
    (v : Int × Int) (hm : m ≠ n) :
    findVal (l.map (fun e => if e.1 = n then (n, v.1, v.2) else e)) m = findVal l m := by
  induction l with
  | nil => rfl
  | cons e t ih =>
    rw [List.map_cons]
    by_cases hn : e.1 = n
    · rw [if_pos hn, findVal_cons, findVal_cons]
      have h1 : ¬ ((n, v.1, v.2) : String × Int × Int).1 = m := fun hc => hm hc.symm
      have h2 : ¬ e.1 = m := fun hc => hm (by rw [← hc, hn])
      rw [if_neg h1, if_neg h2]
      exact ih
    · rw [if_neg hn, findVal_cons, findVal_cons]
      by_cases hem : e.1 = m
      · rw [if_pos hem, if_pos hem]
      · rw [if_neg hem, if_neg hem]
        exact ih

theorem findVal_upsertVal_other (l : List (String × Int × Int)) (n m : String)
    (v : Int × Int) (hm : m ≠ n) : findVal (upsertVal l n v) m = findVal l m := by
  unfold upsertVal
  by_cases h : l.any (fun e => decide (e.1 = n)) = true
  · rw [if_pos h]
    exact findVal_map_update_other l n m v hm
  · rw [if_neg h, findVal_append]
    cases hf : findVal l m with
    | some v' => rfl
    | none =>
      rw [findVal_cons, if_neg (fun hc => hm hc.symm)]
      rfl

theorem findVal_eq_of_mem_nodup {l : List (String × Int × Int)}
    (hnd : (l.map Prod.fst).Nodup) {e : String × Int × Int} (he : e ∈ l) :
    findVal l e.1 = some e.2 := by
  induction l with
  | nil => cases he
  | cons a t ih =>
    rw [List.map_cons, List.nodup_cons] at hnd
    rcases List.mem_cons.mp he with he | he
    · rw [← he, findVal_cons, if_pos rfl]
    · have hne : ¬ a.1 = e.1 := by
        intro hc
        exact hnd.1 (hc ▸ List.mem_map.mpr ⟨e, he, rfl⟩)
      rw [findVal_cons, if_neg hne]
      exact ih hnd.2 he

theorem upsertVal_of_found (l : List (String × Int × Int)) (n : String)
    (v : Int × Int) (hnd : (l.map Prod.fst).Nodup) (h : findVal l n = some v) :
    upsertVal l n v = l := by
  have hmem : ∃ e ∈ l, e.1 = n := by
    induction l with
    | nil => cases h
    | cons a t ih =>
      rw [findVal_cons] at h
      by_cases hn : a.1 = n
      · exact ⟨a, List.mem_cons_self _ _, hn⟩
      · rw [if_neg hn] at h
        obtain ⟨e, he, hee⟩ := ih ((List.map_cons _ _ _ ▸ hnd).of_cons) h
        exact ⟨e, List.mem_cons_of_mem _ he, hee⟩
  unfold upsertVal
  have hany : l.any (fun e => decide (e.1 = n)) = true := by
    obtain ⟨e, he, hee⟩ := hmem
    exact List.any_eq_true.mpr ⟨e, he, by simp [hee]⟩
  rw [if_pos hany]
  conv_rhs => rw [← List.map_id l]
  apply List.map_congr_left
  intro e he
  by_cases hn : e.1 = n
  · have hv : findVal l n = some e.2 := hn ▸ findVal_eq_of_mem_nodup hnd he
    have hev : e.2 = v := by
      rw [h] at hv
      exact (Option.some_inj.mp hv).symm
    obtain ⟨e1, e2, e3⟩ := e
    simp only [id_eq, if_pos hn]
    simp only at hn hev
    rw [← hn, ← hev]
  · simp [hn]

theorem upsertVals_of_all_found (l : List (String × Int × Int))
    (agg : List (String × Int × Int)) (hnd : (l.map Prod.fst).Nodup)
    (h : ∀ e ∈ agg, findVal l e.1 = some e.2) : upsertVals l agg = l := by
  induction agg with
  | nil => rfl
  | cons e t ih =>
    have h1 : upsertVal l e.1 e.2 = l :=
      upsertVal_of_found l e.1 e.2 hnd (h e (List.mem_cons_self _ _))
    have h2 : upsertVals l (e :: t) = upsertVals (upsertVal l e.1 e.2) t := rfl
    rw [h2, h1]
    exact ih (fun e' he' => h e' (List.mem_cons_of_mem _ he'))

theorem upsertVal_nodup (l : List (String × Int × Int)) (n : String)
    (v : Int × Int) (hnd : (l.map Prod.fst).Nodup) :
    ((upsertVal l n v).map Prod.fst).Nodup := by
  unfold upsertVal
  by_cases h : l.any (fun e => decide (e.1 = n)) = true
  · rw [if_pos h]
    have : (l.map (fun e => if e.1 = n then (n, v.1, v.2) else e)).map Prod.fst
        = l.map Prod.fst := by
      rw [List.map_map]
      apply List.map_congr_left
      intro e _
      by_cases hn : e.1 = n
      · simp [hn]
      · simp [hn]
    rw [this]
    exact hnd
  · rw [if_neg h, List.map_append]
    rw [List.nodup_append]
    refine ⟨hnd, List.nodup_singleton _, ?_⟩
    intro x hx hx1
    have hxn : x = n := by simpa using hx1
    obtain ⟨e, he, hee⟩ := List.mem_map.mp hx
    exact h (List.any_eq_true.mpr ⟨e, he, by simp [hee, hxn]⟩)

theorem upsertVals_nodup (l : List (String × Int × Int))
    (agg : List (String × Int × Int)) (hnd : (l.map Prod.fst).Nodup) :
    ((upsertVals l agg).map Prod.fst).Nodup := by
  induction agg generalizing l with
  | nil => exact hnd
  | cons e t ih => exact ih _ (upsertVal_nodup l e.1 e.2 hnd)

theorem findVal_upsertVals_not_mem (l : List (String × Int × Int))
    (agg : List (String × Int × Int)) (m : String)
    (hm : ∀ e ∈ agg, e.1 ≠ m) :
    findVal (upsertVals l agg) m = findVal l m := by
  induction agg generalizing l with
  | nil => rfl
  | cons e t ih =>
    have h2 : upsertVals l (e :: t) = upsertVals (upsertVal l e.1 e.2) t := rfl
    rw [h2, ih _ (fun e' he' => hm e' (List.mem_cons_of_mem _ he'))]
    exact findVal_upsertVal_other l e.1 m e.2
      (fun hc => hm e (List.mem_cons_self _ _) hc.symm)

theorem all_found_after_upsertVals (l : List (String × Int × Int))
    (agg : List (String × Int × Int)) (hagg : (agg.map Prod.fst).Nodup) :
    ∀ e ∈ agg, findVal (upsertVals l agg) e.1 = some e.2 := by
  induction agg generalizing l with
  | nil => intro e he; cases he
  | cons a t ih =>
    rw [List.map_cons, List.nodup_cons] at hagg
    intro e he
    rcases List.mem_cons.mp he with he | he
    · subst he
      have hnm : ∀ e' ∈ t, e'.1 ≠ e.1 := by
        intro e' he' hc
        exact hagg.1 (hc ▸ List.mem_map.mpr ⟨e', he', rfl⟩)
      have h2 : upsertVals l (e :: t) = upsertVals (upsertVal l e.1 e.2) t := rfl
      rw [h2, findVal_upsertVals_not_mem _ t e.1 hnm]
      exact findVal_upsertVal_self l e.1 e.2
    · exact ih (upsertVal l a.1 a.2) hagg.2 e he

theorem calcAgg_fst (picks : List PickRow) (snaps : List SnapshotRow) :
    (calcAgg picks snaps).map Prod.fst = aggNames picks := by
  unfold calcAgg
  rw [List.map_map]
  exact List.map_id _

theorem calcAgg_fst_nodup (picks : List PickRow) (snaps : List SnapshotRow) :
    ((calcAgg picks snaps).map Prod.fst).Nodup := by
  rw [calcAgg_fst]
  exact List.nodup_dedup _

/-- C4: `calculate_scores` reads picks and snapshots without modifying them,
and running it twice in a row (any timestamps) yields the same
`(name, total_points, correct_picks)` rows as running it once — the
aggregate is a pure function of the current picks and snapshots and the
second upsert overwrites every row with its own value. -/
theorem calculate_scores_idempotent (st : DBState) (t1 t2 : String)
    (h : (st.scores.map (fun r => r.name)).Nodup) :
    (calculate_scores st t1).picks = st.picks
    ∧ (calculate_scores st t1).snapshots = st.snapshots
    ∧ scoreVals ((calculate_scores (calculate_scores st t1) t2).scores)
        = scoreVals ((calculate_scores st t1).scores) := by
  refine ⟨rfl, rfl, ?_⟩
  show scoreVals (upsertScores (upsertScores st.scores (calcAgg st.picks st.snapshots) t1)
      (calcAgg st.picks st.snapshots) t2)
    = scoreVals (upsertScores st.scores (calcAgg st.picks st.snapshots) t1)
  rw [scoreVals_upsertScores, scoreVals_upsertScores]
  apply upsertVals_of_all_found
  · apply upsertVals_nodup
    rw [scoreVals_fst]
    exact h
  · exact all_found_after_upsertVals _ _ (calcAgg_fst_nodup st.picks st.snapshots)

/-- C4 witness: two consecutive runs on a concrete state agree. -/
theorem calculate_scores_idempotent_witness :
    scoreVals ((calculate_scores (calculate_scores wonState "a") "b").scores)
      = scoreVals ((calculate_scores wonState "a").scores) :=
  (calculate_scores_idempotent wonState "a" "b" (by decide)).2.2

/-! ### Helper lemmas: lock-time points and `save_picks` -/

theorem lookup_append_of_some (l1 l2 : List (String × Int)) (a : String) (v : Int)
    (h : l1.lookup a = some v) : (l1 ++ l2).lookup a = some v := by
  induction l1 with
  | nil => cases h
  | cons e t ih =>
    rw [List.cons_append]
    by_cases he : a == e.1
    · simpa [List.lookup, he] using h
    · rw [List.lookup] at h
      simp only [he] at h
      simpa [List.lookup, he] using ih (by simpa using h)

theorem lookup_append_of_none (l1 l2 : List (String × Int)) (a : String)
    (h : l1.lookup a = none) : (l1 ++ l2).lookup a = l2.lookup a := by
  induction l1 with
  | nil => rfl
  | cons e t ih =>
    rw [List.cons_append]
    by_cases he : a == e.1
    · rw [List.lookup] at h
      simp [he] at h
    · rw [List.lookup] at h
      simp only [he] at h
      simpa [List.lookup, he] using ih (by simpa using h)

theorem validate_pick_points (raw : String) (cat : String) (pts : Int)
    (canon : String) (h : validate_pick raw = (some cat, pts, canon)) :
    ALL_POINTS.lookup canon = some pts := by
  have h' : (match SAY_POINTS.lookup (resolve_pick raw) with
      | some p => (some "say", p, resolve_pick raw)
      | none =>
        match MENTION_POINTS.lookup (resolve_pick raw) with
        | some p => (some "mention", p, resolve_pick raw)
        | none => ((none : Option String), (0 : Int), raw))
      = (some cat, pts, canon) := h
  cases hs : SAY_POINTS.lookup (resolve_pick raw) with
  | some p =>
    rw [hs] at h'
    simp only [Prod.mk.injEq] at h'
    obtain ⟨-, hpts, hcanon⟩ := h'
    rw [← hcanon, ← hpts]
    exact lookup_append_of_some _ _ _ _ hs
  | none =>
    rw [hs] at h'
    cases hm : MENTION_POINTS.lookup (resolve_pick raw) with
    | some p =>
      rw [hm] at h'
      simp only [Prod.mk.injEq] at h'
      obtain ⟨-, hpts, hcanon⟩ := h'
      rw [← hcanon, ← hpts]
      rw [ALL_POINTS, lookup_append_of_none _ _ _ hs]
      exact hm
    | none =>
      rw [hm] at h'
      simp at h'

theorem processCell_points (title_to_ticker : List (String × List (String × String)))
    (ts name now cell : String) (p : PickRow)
    (hc : processCell title_to_ticker ts name now cell = some p) :
    ALL_POINTS.lookup p.pick = some p.points := by
  have hc' : (if (decide (pyStrip cell = "")
        || decide (pyLower (pyStrip cell) = "nan")) = true then none
      else
        match validate_pick (pyStrip cell) with
        | (none, _, _) => none
        | (some category, pts, canonical) =>
            some (⟨0, ts, name, canonical, pts,
              ((List.lookup canonical
                ((List.lookup category title_to_ticker).getD [])).getD ""),
              ((List.lookup category EVENT_TICKERS).getD ""), now⟩ : PickRow))
      = some p := hc
  split at hc'
  · cases hc'
  · split at hc'
    · cases hc'
    · rename_i category pts canonical heq
      obtain rfl := Option.some_inj.mp hc'
      exact validate_pick_points _ _ _ _ heq

/-- C8: a pick's `points` field is frozen at lock time — every row inserted
by `save_picks` carries the points-table value of its canonical option as
of the insert, `backfill_tickers` changes nothing but the two ticker
columns, `calculate_scores` never writes the picks table, and `save_picks`
itself only appends — so a later ledger read returns the lock-time value. -/
theorem points_frozen_at_lock_time :
    (∀ df title_to_ticker now p, p ∈ insertedPicks df title_to_ticker now →
        ALL_POINTS.lookup p.pick = some p.points)
    ∧ (∀ title_to_ticker st,
        ((backfill_tickers title_to_ticker st).picks).map pickFrozenView
          = st.picks.map pickFrozenView)
    ∧ (∀ st now, (calculate_scores st now).picks = st.picks)
    ∧ (∀ df title_to_ticker now st, ∃ newRows,
        (save_picks df title_to_ticker now st).picks = st.picks ++ newRows) := by
  refine ⟨?_, ?_, fun _ _ => rfl, fun _ _ _ _ => ⟨_, rfl⟩⟩
  · intro df title_to_ticker now p hp
    obtain ⟨r, _, hpr⟩ := List.mem_flatMap.mp hp
    unfold processInputRow at hpr
    by_cases hn : pyStrip r.name = ""
    · rw [if_pos hn] at hpr
      cases hpr
    · rw [if_neg hn] at hpr
      obtain ⟨cell, _, hc⟩ := List.mem_filterMap.mp hpr
      exact processCell_points _ _ _ _ _ _ hc
  · intro title_to_ticker st
    unfold backfill_tickers
    rw [List.map_map]
    apply List.map_congr_left
    intro p _
    show pickFrozenView (backfillPick title_to_ticker p) = pickFrozenView p
    unfold backfillPick
    by_cases h : p.market_ticker = ""
    · rw [if_pos h]
      cases hf : backfillFind title_to_ticker p EVENT_TICKERS with
      | none => rfl
      | some pr => rfl
    · rw [if_neg h]

/-- C8 witness: a lock of "Trillion — 7 Points" inserts the canonical row
whose stored points equal the table's value for "Trillion". -/
theorem points_frozen_at_lock_time_witness :
    ALL_POINTS.lookup "Trillion" = some 7 :=
  points_frozen_at_lock_time.1 [⟨"Alice", "ts", ["Trillion — 7 Points"]⟩] [] "now"
    ⟨0, "ts", "Alice", "Trillion", 7, "", "KXTRUMPMENTION-26FEB28", "now"⟩ (by decide)

theorem filterMap_processCell (title_to_ticker : List (String × List (String × String)))
    (ts name now : String) (cells : List String) :
    cells.filterMap (processCell title_to_ticker ts name now)
      = ((cells.map pyStrip).filter (fun c =>
            (!(decide (c = "") || decide (pyLower c = "nan")))
              && (validate_pick c).1.isSome)).map
          (fun c => (⟨0, ts, name, (validate_pick c).2.2, (validate_pick c).2.1,
            ((List.lookup ((validate_pick c).2.2)
              ((List.lookup ((validate_pick c).1.getD "") title_to_ticker).getD [])).getD ""),
            ((List.lookup ((validate_pick c).1.getD "") EVENT_TICKERS).getD ""),
            now⟩ : PickRow)) := by
  induction cells with
  | nil => rfl
  | cons cell t ih =>
    rw [List.filterMap_cons, List.map_cons, List.filter_cons]
    by_cases hb : (decide (pyStrip cell = "")
        || decide (pyLower (pyStrip cell) = "nan")) = true
    · have hpc : processCell title_to_ticker ts name now cell = none := by
        show (if (decide (pyStrip cell = "")
            || decide (pyLower (pyStrip cell) = "nan")) = true then none
          else
            match validate_pick (pyStrip cell) with
            | (none, _, _) => none
            | (some category, pts, canonical) =>
                some (⟨0, ts, name, canonical, pts,
                  ((List.lookup canonical
                    ((List.lookup category title_to_ticker).getD [])).getD ""),
                  ((List.lookup category EVENT_TICKERS).getD ""), now⟩ : PickRow))
          = none
        rw [if_pos hb]
      rw [hpc]
      rw [if_neg (by simp [hb])]
      exact ih
    · have hb' : (decide (pyStrip cell = "")
          || decide (pyLower (pyStrip cell) = "nan")) = false :=
        Bool.not_eq_true _ |>.mp hb
      have hshape : processCell title_to_ticker ts name now cell
          = match validate_pick (pyStrip cell) with
            | (none, _, _) => none
            | (some category, pts, canonical) =>
                some (⟨0, ts, name, canonical, pts,
                  ((List.lookup canonical
                    ((List.lookup category title_to_ticker).getD [])).getD ""),
                  ((List.lookup category EVENT_TICKERS).getD ""), now⟩ : PickRow) := by
        show (if (decide (pyStrip cell = "")
            || decide (pyLower (pyStrip cell) = "nan")) = true then none
          else _) = _
        rw [if_neg (by simp [hb'])]
      cases hv : validate_pick (pyStrip cell) with
      | mk fst rest =>
        cases fst with
        | none =>
          rw [hshape, hv]
          rw [if_neg (by simp [hv])]
          exact ih
        | some cat =>
          obtain ⟨pts, canon⟩ := rest
          rw [hshape, hv]
          rw [if_pos (by simp [hv, hb'])]
          rw [List.map_cons, hv, ih]
          rfl

/-- C9: `save_picks` inserts exactly one row per pick cell that survives the
two skips — blank / `"nan"` placeholder cells and cells whose text fails
classification are dropped without error (every other row field coming from
the classification) — and the stored `market_ticker` is the
`title_to_ticker[category][canonical]` entry, defaulting to `""` when
absent; rows with a blank participant name are skipped whole. -/
theorem save_picks_row_policy (df : List InputRow)
    (title_to_ticker : List (String × List (String × String))) (now : String) :
    insertedPicks df title_to_ticker now
      = (df.filter (fun r => decide (pyStrip r.name ≠ ""))).flatMap (fun r =>
          ((r.cells.map pyStrip).filter (fun c =>
              (!(decide (c = "") || decide (pyLower c = "nan")))
                && (validate_pick c).1.isSome)).map
            (fun c => (⟨0, r.timestamp, pyStrip r.name, (validate_pick c).2.2,
              (validate_pick c).2.1,
              ((List.lookup ((validate_pick c).2.2)
                ((List.lookup ((validate_pick c).1.getD "") title_to_ticker).getD [])).getD ""),
              ((List.lookup ((validate_pick c).1.getD "") EVENT_TICKERS).getD ""),
              now⟩ : PickRow))) := by
  induction df with
  | nil => rfl
  | cons r t ih =>
    unfold insertedPicks
    unfold insertedPicks at ih
    rw [List.flatMap_cons, List.filter_cons]
    by_cases hn : pyStrip r.name = ""
    · rw [if_neg (by simp [hn])]
      have hpr : processInputRow title_to_ticker now r = [] := by
        show (if pyStrip r.name = "" then []
          else r.cells.filterMap
            (processCell title_to_ticker r.timestamp (pyStrip r.name) now)) = []
        rw [if_pos hn]
      rw [hpr, List.nil_append]
      exact ih
    · rw [if_pos (by simp [hn])]
      rw [List.flatMap_cons]
      have hpr : processInputRow title_to_ticker now r
          = r.cells.filterMap
              (processCell title_to_ticker r.timestamp (pyStrip r.name) now) := by
        show (if pyStrip r.name = "" then []
          else r.cells.filterMap
            (processCell title_to_ticker r.timestamp (pyStrip r.name) now)) = _
        rw [if_neg hn]
      rw [hpr, filterMap_processCell, ih]

/-! ### Helper lemmas: the points-suffix pattern -/

theorem isWs_cases {c : Char} (h : isWs c = true) :
    c = ' ' ∨ c = '\t' ∨ c = '\n' ∨ c = '\r' ∨ c = '\x0b' ∨ c = '\x0c' := by
  simp only [isWs, Bool.or_eq_true, decide_eq_true_eq, or_assoc] at h
  exact h

theorem ws_not_digit {c : Char} (h : isWs c = true) : c.isDigit = false := by
  rcases isWs_cases h with h | h | h | h | h | h <;> subst h <;> decide

theorem digit_not_ws {c : Char} (h : c.isDigit = true) : isWs c = false := by
  cases hw : isWs c with
  | false => rfl
  | true => rw [ws_not_digit hw] at h; cases h

theorem ws_ne_s {c : Char} (h : isWs c = true) : c ≠ 's' := by
  rcases isWs_cases h with h | h | h | h | h | h <;> subst h <;> decide

theorem dash_not_ws {c : Char} (h : isDash c = true) : isWs c = false := by
  have hc : c = '—' ∨ c = '–' ∨ c = '-' := by
    simp only [isDash, Bool.or_eq_true, decide_eq_true_eq, or_assoc] at h
    exact h
  rcases hc with h | h | h <;> subst h <;> decide

theorem skipWs_decomp (l : List Char) :
    ∃ w, l = w ++ skipWs l ∧ ∀ c ∈ w, isWs c = true := by
  induction l with
  | nil => exact ⟨[], rfl, by simp⟩
  | cons c r ih =>
    cases h : isWs c with
    | true =>
      obtain ⟨w, hw, hws⟩ := ih
      refine ⟨c :: w, ?_, ?_⟩
      · rw [skipWs, if_pos h, List.cons_append, ← hw]
      · intro x hx
        rcases List.mem_cons.mp hx with hx | hx
        · rw [hx]; exact h
        · exact hws x hx
    | false =>
      exact ⟨[], by rw [skipWs, if_neg (by simp [h]), List.nil_append], by simp⟩

theorem skipWs_append_of_allWs (w : List Char) (hw : ∀ c ∈ w, isWs c = true)
    (l : List Char) : skipWs (w ++ l) = skipWs l := by
  induction w with
  | nil => rfl
  | cons c t ih =>
    rw [List.cons_append, skipWs, if_pos (hw c (List.mem_cons_self _ _))]
    exact ih (fun x hx => hw x (List.mem_cons_of_mem _ hx))

theorem skipWs_cons_of_not {c : Char} (h : isWs c = false) (r : List Char) :
    skipWs (c :: r) = c :: r := by
  rw [skipWs, if_neg (by simp [h])]

theorem takeDigits_decomp (l : List Char) :
    ∃ ds, l = ds ++ (takeDigits l).2 ∧ (∀ c ∈ ds, c.isDigit = true)
      ∧ ds.length = (takeDigits l).1 := by
  induction l with
  | nil => exact ⟨[], rfl, by simp, rfl⟩
  | cons c r ih =>
    cases h : c.isDigit with
    | true =>
      obtain ⟨ds, hd, hds, hlen⟩ := ih
      refine ⟨c :: ds, ?_, ?_, ?_⟩
      · rw [takeDigits, if_pos h, List.cons_append, ← hd]
      · intro x hx
        rcases List.mem_cons.mp hx with hx | hx
        · rw [hx]; exact h
        · exact hds x hx
      · rw [takeDigits, if_pos h, List.length_cons, hlen]
    | false =>
      refine ⟨[], ?_, by simp, ?_⟩
      · rw [takeDigits, if_neg (by simp [h]), List.nil_append]
      · rw [takeDigits, if_neg (by simp [h])]
        rfl

theorem takeDigits_cons_of_not {c : Char} (h : c.isDigit = false) (r : List Char) :
    takeDigits (c :: r) = (0, c :: r) := by
  rw [takeDigits, if_neg (by simp [h])]

theorem takeDigits_append (ds : List Char) (hds : ∀ c ∈ ds, c.isDigit = true)
    (l : List Char) (hl : ∀ c, l.head? = some c → c.isDigit = false) :
    takeDigits (ds ++ l) = (ds.length, l) := by
  induction ds with
  | nil =>
    cases l with
    | nil => rfl
    | cons c r => exact takeDigits_cons_of_not (hl c rfl) r
  | cons d t ih =>
    rw [List.cons_append, takeDigits, if_pos (hds d (List.mem_cons_self _ _))]
    rw [ih (fun x hx => hds x (List.mem_cons_of_mem _ hx))]
    rfl

theorem consumeOptS_of_ne {c : Char} (h : c ≠ 's') (r : List Char) :
    consumeOptS (c :: r) = c :: r := by
  unfold consumeOptS
  split
  · rename_i heq
    cases heq
    exact absurd rfl h
  · rfl

theorem matchWordTail_decomp {w : List Char} (h : matchWordTail w = true) :
    ∃ wd w4, w = wd ++ w4
      ∧ (wd = ['p','o','i','n','t','s'] ∨ wd = ['p','o','i','n','t']
         ∨ wd = ['P','o','i','n','t','s'] ∨ wd = ['P','o','i','n','t'])
      ∧ ∀ c ∈ w4, isWs c = true := by
  unfold matchWordTail at h
  split at h
  · rename_i c r
    rw [Bool.and_eq_true] at h
    obtain ⟨hc, hws⟩ := h
    have hallw : ∀ x ∈ consumeOptS r, isWs x = true := by
      intro x hx
      exact List.all_eq_true.mp hws x hx
    have hc' : c = 'p' ∨ c = 'P' := by simpa using hc
    cases r with
    | nil =>
      rcases hc' with hc' | hc' <;> subst hc'
      · exact ⟨['p','o','i','n','t'], [], rfl, by tauto, by simp⟩
      · exact ⟨['P','o','i','n','t'], [], rfl, by tauto, by simp⟩
    | cons s1 r2 =>
      by_cases hs : s1 = 's'
      · subst hs
        rcases hc' with hc' | hc' <;> subst hc'
        · exact ⟨['p','o','i','n','t','s'], r2, rfl, by tauto, hallw⟩
        · exact ⟨['P','o','i','n','t','s'], r2, rfl, by tauto, hallw⟩
      · rw [consumeOptS_of_ne hs r2] at hallw
        rcases hc' with hc' | hc' <;> subst hc'
        · exact ⟨['p','o','i','n','t'], s1 :: r2, rfl, by tauto, hallw⟩
        · exact ⟨['P','o','i','n','t'], s1 :: r2, rfl, by tauto, hallw⟩
  · cases h

theorem matchWordTail_of (wd w4 : List Char)
    (hwd : wd = ['p','o','i','n','t','s'] ∨ wd = ['p','o','i','n','t']
         ∨ wd = ['P','o','i','n','t','s'] ∨ wd = ['P','o','i','n','t'])
    (hw4 : ∀ c ∈ w4, isWs c = true) : matchWordTail (wd ++ w4) = true := by
  have hall : allWsB w4 = true := List.all_eq_true.mpr hw4
  have htail : allWsB (consumeOptS w4) = true := by
    cases w4 with
    | nil => exact hall
    | cons c r =>
      rw [consumeOptS_of_ne (ws_ne_s (hw4 c (List.mem_cons_self _ _))) r]
      exact hall
  rcases hwd with h | h | h | h <;> subst h
  · simp [matchWordTail, consumeOptS, hall]
  · simp [matchWordTail, htail]
  · simp [matchWordTail, consumeOptS, hall]
  · simp [matchWordTail, htail]

theorem pointsSuffixMatch_iff (l : List Char) :
    pointsSuffixMatch l = true ↔
      ∃ w1 d w2 ds w3 wd w4,
        l = w1 ++ d :: (w2 ++ (ds ++ (w3 ++ (wd ++ w4))))
        ∧ (∀ c ∈ w1, isWs c = true) ∧ isDash d = true
        ∧ (∀ c ∈ w2, isWs c = true) ∧ ds ≠ [] ∧ (∀ c ∈ ds, c.isDigit = true)
        ∧ (∀ c ∈ w3, isWs c = true)
        ∧ (wd = ['p','o','i','n','t','s'] ∨ wd = ['p','o','i','n','t']
           ∨ wd = ['P','o','i','n','t','s'] ∨ wd = ['P','o','i','n','t'])
        ∧ (∀ c ∈ w4, isWs c = true) := by
  constructor
  · intro h
    unfold pointsSuffixMatch at h
    split at h
    · cases h
    · rename_i d r heq
      rw [Bool.and_eq_true] at h
      obtain ⟨hd, h2⟩ := h
      have h2' : (decide (0 < (takeDigits (skipWs r)).1)
          && matchWordTail (skipWs (takeDigits (skipWs r)).2)) = true := h2
      rw [Bool.and_eq_true] at h2'
      obtain ⟨hn, hw⟩ := h2'
      have hn' : 0 < (takeDigits (skipWs r)).1 := of_decide_eq_true hn
      obtain ⟨w1, hw1, hw1s⟩ := skipWs_decomp l
      obtain ⟨w2, hw2, hw2s⟩ := skipWs_decomp r
      obtain ⟨ds, hds, hdss, hdlen⟩ := takeDigits_decomp (skipWs r)
      obtain ⟨w3, hw3, hw3s⟩ := skipWs_decomp ((takeDigits (skipWs r)).2)
      obtain ⟨wd, w4, hwd4, hwd, hw4s⟩ := matchWordTail_decomp hw
      have hdne : ds ≠ [] := by
        intro hnil
        rw [hnil] at hdlen
        rw [← hdlen] at hn'
        simp at hn'
      refine ⟨w1, d, w2, ds, w3, wd, w4, ?_, hw1s, hd, hw2s, hdne, hdss, hw3s, hwd, hw4s⟩
      have hr : r = w2 ++ (ds ++ (w3 ++ (wd ++ w4))) := by
        rw [← hwd4, ← hw3, ← hds, ← hw2]
      rw [hw1, heq, hr]
  · rintro ⟨w1, d, w2, ds, w3, wd, w4, rfl, hw1s, hd, hw2s, hdne, hdss, hw3s, hwd, hw4s⟩
    have hred : pointsSuffixMatch (w1 ++ d :: (w2 ++ (ds ++ (w3 ++ (wd ++ w4)))))
        = (isDash d
           && (decide (0 < (takeDigits (skipWs (w2 ++ (ds ++ (w3 ++ (wd ++ w4)))))).1)
              && matchWordTail
                  (skipWs (takeDigits (skipWs (w2 ++ (ds ++ (w3 ++ (wd ++ w4)))))).2))) := by
      unfold pointsSuffixMatch
      rw [skipWs_append_of_allWs w1 hw1s, skipWs_cons_of_not (dash_not_ws hd)]
    have hX : skipWs (w2 ++ (ds ++ (w3 ++ (wd ++ w4)))) = ds ++ (w3 ++ (wd ++ w4)) := by
      rw [skipWs_append_of_allWs w2 hw2s]
      cases ds with
      | nil => exact absurd rfl hdne
      | cons d0 ds0 =>
        rw [List.cons_append]
        exact skipWs_cons_of_not (digit_not_ws (hdss d0 (List.mem_cons_self _ _))) _
    have hhead : ∀ c, (w3 ++ (wd ++ w4)).head? = some c → c.isDigit = false := by
      intro c hc
      cases w3 with
      | cons a w3' =>
        rw [List.cons_append, List.head?_cons] at hc
        obtain rfl := Option.some_inj.mp hc
        exact ws_not_digit (hw3s a (List.mem_cons_self _ _))
      | nil =>
        rw [List.nil_append] at hc
        rcases hwd with h | h | h | h <;> subst h <;>
          rw [List.cons_append, List.head?_cons] at hc <;>
          obtain rfl := Option.some_inj.mp hc <;> decide
    have hsk3 : skipWs (w3 ++ (wd ++ w4)) = wd ++ w4 := by
      rw [skipWs_append_of_allWs w3 hw3s]
      rcases hwd with h | h | h | h <;> subst h <;>
        (rw [List.cons_append]; exact skipWs_cons_of_not (by decide) _)
    rw [hred, hX, takeDigits_append ds hdss _ hhead]
    simp [hd, hsk3, matchWordTail_of wd w4 hwd hw4s, List.length_pos.mpr hdne]

theorem getLast?_pattern (w1 : List Char) (d : Char) (w2 ds w3 tail : List Char)
    (htail : tail ≠ []) :
    (w1 ++ d :: (w2 ++ (ds ++ (w3 ++ tail)))).getLast? = tail.getLast? := by
  have h3 : w3 ++ tail ≠ [] := by
    intro h
    rw [List.append_eq_nil] at h
    exact htail h.2
  have h2 : ds ++ (w3 ++ tail) ≠ [] := by
    intro h
    rw [List.append_eq_nil] at h
    exact h3 h.2
  have h1 : w2 ++ (ds ++ (w3 ++ tail)) ≠ [] := by
    intro h
    rw [List.append_eq_nil] at h
    exact h2 h.2
  rw [List.getLast?_append_of_ne_nil _ (List.cons_ne_nil _ _)]
  rw [show d :: (w2 ++ (ds ++ (w3 ++ tail))) = [d] ++ (w2 ++ (ds ++ (w3 ++ tail))) from rfl]
  rw [List.getLast?_append_of_ne_nil _ h1, List.getLast?_append_of_ne_nil _ h2,
    List.getLast?_append_of_ne_nil _ h3, List.getLast?_append_of_ne_nil _ htail]

theorem pointsSuffixMatch_last_digit (l : List Char) (c : Char)
    (hc : c.isDigit = true) : pointsSuffixMatch (l ++ [c]) = false := by
  cases hb : pointsSuffixMatch (l ++ [c]) with
  | false => rfl
  | true =>
    exfalso
    obtain ⟨w1, d, w2, ds, w3, wd, w4, hEq, -, -, -, -, -, -, hwd, hw4s⟩ :=
      (pointsSuffixMatch_iff _).mp hb
    have hlast : (l ++ [c]).getLast? = some c := List.getLast?_concat _
    rw [hEq] at hlast
    have hwdne : wd ≠ [] := by
      rcases hwd with h | h | h | h <;> subst h <;> exact List.cons_ne_nil _ _
    have htne : wd ++ w4 ≠ [] := by
      intro h
      rw [List.append_eq_nil] at h
      exact hwdne h.1
    rw [getLast?_pattern w1 d w2 ds w3 (wd ++ w4) htne] at hlast
    rcases List.eq_nil_or_concat w4 with h4 | ⟨w4', e, h4⟩
    · subst h4
      rw [List.append_nil] at hlast
      rcases hwd with h | h | h | h <;> subst h <;>
        (obtain rfl := Option.some_inj.mp hlast.symm) <;> simp at hc
    · subst h4
      simp only [List.concat_eq_append] at hlast hw4s
      rw [← List.append_assoc, List.getLast?_concat] at hlast
      obtain rfl := Option.some_inj.mp hlast.symm
      have hew : isWs c = true := hw4s c (by simp)
      rw [ws_not_digit hew] at hc
      cases hc

theorem stripCore_append_digit (l : List Char) (c : Char) (hc : c.isDigit = true) :
    stripCore (l ++ [c]) = l ++ [c] := by
  induction l with
  | nil =>
    show stripCore [c] = [c]
    have h0 : pointsSuffixMatch [c] = false := pointsSuffixMatch_last_digit [] c hc
    rw [stripCore, h0]
    rfl
  | cons a l' ih =>
    rw [List.cons_append, stripCore]
    rw [show a :: (l' ++ [c]) = (a :: l') ++ [c] from rfl,
      pointsSuffixMatch_last_digit (a :: l') c hc]
    simp only [Bool.false_eq_true, if_false]
    rw [List.cons_append, ih]

/-- C7 amended: `_POINTS_SUFFIX` matches exactly the suffixes of the form
optional whitespace, one dash-like character, optional whitespace, one or
more digits, optional whitespace, a REQUIRED `points`/`point` word (initial
letter optionally capitalized), optional trailing whitespace — the word is
not optional, so an input ending in a digit (a bare dash-digits annotation)
is never stripped, only trimmed; `strip_points_label` deletes from the
leftmost such match to the end and trims, and `resolve_pick` then
substitutes through the alias table, returning the stripped-and-trimmed
input itself when no alias applies. -/
theorem strip_points_suffix_characterization :
    (∀ l : List Char, pointsSuffixMatch l = true ↔
      ∃ w1 d w2 ds w3 wd w4,
        l = w1 ++ d :: (w2 ++ (ds ++ (w3 ++ (wd ++ w4))))
        ∧ (∀ c ∈ w1, isWs c = true) ∧ isDash d = true
        ∧ (∀ c ∈ w2, isWs c = true) ∧ ds ≠ [] ∧ (∀ c ∈ ds, c.isDigit = true)
        ∧ (∀ c ∈ w3, isWs c = true)
        ∧ (wd = ['p','o','i','n','t','s'] ∨ wd = ['p','o','i','n','t']
           ∨ wd = ['P','o','i','n','t','s'] ∨ wd = ['P','o','i','n','t'])
        ∧ (∀ c ∈ w4, isWs c = true))
    ∧ (∀ (l : List Char) (c : Char), c.isDigit = true →
        strip_points_label (String.mk (l ++ [c])) = pyStrip (String.mk (l ++ [c])))
    ∧ (∀ s : String, strip_points_label s = pyStrip (String.mk (stripCore s.data)))
    ∧ (∀ s : String, resolve_pick s
        = ((ALIASES.lookup (strip_points_label s)).getD (strip_points_label s))) := by
  refine ⟨pointsSuffixMatch_iff, ?_, fun s => rfl, fun s => rfl⟩
  intro l c hc
  unfold strip_points_label
  rw [show (String.mk (l ++ [c])).data = l ++ [c] from rfl,
    stripCore_append_digit l c hc]

/-- C7 witness: the digit-ending input `"Trillion - 7"` is returned
unstripped (only trimmed). -/
theorem strip_points_suffix_characterization_witness :
    strip_points_label "Trillion - 7" = "Trillion - 7" := by
  have h := strip_points_suffix_characterization.2.1 "Trillion - ".data '7' (by decide)
  have h2 : String.mk ("Trillion - ".data ++ ['7']) = "Trillion - 7" := by decide
  rw [h2] at h
  rw [h]
  decide

/-- C7 counterexample: the claim's pattern (points word optional) strips
`"Trillion - 7"` to `"Trillion"`, but `strip_points_label` — whose regex
requires the `[Pp]oints?` word — returns the input unchanged (trimmed). -/
theorem strip_points_no_word_counterexample :
    claimStrip "Trillion - 7" = "Trillion"
    ∧ strip_points_label "Trillion - 7" = "Trillion - 7"
    ∧ ("Trillion - 7" : String) ≠ "Trillion" := by
  decide
